import Mathlib

/-!
Verification of the mountpoint-resolution core of osandov/fscrypt
(`filesystem/mountpoint.go`).

Byte strings are modelled as `List Nat` (each element one byte value).
Pure functions of the source are translated directly; the external
collaborators (path canonicalization, `isDir`, `isDevice`) are an explicit
environment of oracle functions, and the two package-level maps are
association lists with Go-map update semantics.
-/

/-! ### Octal unescaping (`unescapeString`) -/

/-- Test for an ASCII octal digit byte, as used by Go's `strconv.ParseUint`
with base 8. -/
def isOctDigit (c : Nat) : Bool := decide (48 ≤ c) && decide (c ≤ 55)

/-- Numeric value of an ASCII digit byte. -/
def octVal (c : Nat) : Nat := c - 48

/-- Model of Go's `strconv.ParseInt(s, 8, 8)` applied to the exact 3-byte
slice `str[i+1:i+4]`: an optional sign followed by octal digits, with the
signed 8-bit range check (value must lie in [-128, 127]; with at most three
characters the magnitude never reaches 128, so only the unsigned 3-digit
form can overflow). Returns the parsed signed value. -/
def parseOctInt8 (c0 c1 c2 : Nat) : Option Int :=
  if c0 = 43 then
    if isOctDigit c1 && isOctDigit c2 then
      some ((8 * octVal c1 + octVal c2 : Nat) : Int)
    else none
  else if c0 = 45 then
    if isOctDigit c1 && isOctDigit c2 then
      some (-((8 * octVal c1 + octVal c2 : Nat) : Int))
    else none
  else
    if isOctDigit c0 && isOctDigit c1 && isOctDigit c2 then
      if 64 * octVal c0 + 8 * octVal c1 + octVal c2 ≤ 127 then
        some ((64 * octVal c0 + 8 * octVal c1 + octVal c2 : Nat) : Int)
      else none
    else none

/-- Go's `uint8(parsed)` conversion: the value reduced modulo 256. -/
def intToByte (v : Int) : Nat := (v % 256).toNat

/-- Fuel-indexed worker for `unescapeString`; the fuel only serves to make
the recursion structural and is always at least the length of the input.
One step of the Go loop: a byte `b` is copied verbatim unless it is a
backslash (92) with at least three following bytes whose 3-byte slice
parses via `parseOctInt8`, in which case the decoded byte is emitted and
the three digit bytes are skipped. -/
def unescapeAux : Nat → List Nat → List Nat
  | 0, _ => []
  | _ + 1, [] => []
  | fuel + 1, b :: rest =>
    if b = 92 then
      match rest with
      | c0 :: c1 :: c2 :: rest2 =>
        match parseOctInt8 c0 c1 c2 with
        | some v => intToByte v :: unescapeAux fuel rest2
        | none => 92 :: unescapeAux fuel rest
      | _ => 92 :: unescapeAux fuel rest
    else b :: unescapeAux fuel rest

/-- Model of `unescapeString` from `filesystem/mountpoint.go`. -/
def unescapeString (s : List Nat) : List Nat := unescapeAux s.length s

/-- Modelled from the spec: the kernel encodes the space, tab, newline and
backslash bytes in mountinfo path fields as a backslash followed by three
octal digits; every other byte is emitted unchanged. -/
def escapeByte (b : Nat) : List Nat :=
  if b = 32 ∨ b = 9 ∨ b = 10 ∨ b = 92 then
    [92, 48 + b / 64, 48 + b / 8 % 8, 48 + b % 8]
  else [b]

/-- Modelled from the spec: the kernel's escaping of a whole byte string. -/
def kernelEscape : List Nat → List Nat
  | [] => []
  | b :: rest => escapeByte b ++ kernelEscape rest

/-- Follows the claim's words, for comparison with the source: a 3-digit
octal sequence denoting any byte value 0-255 is accepted. -/
def parseOctByteClaimed (c0 c1 c2 : Nat) : Option Nat :=
  if isOctDigit c0 && isOctDigit c1 && isOctDigit c2 then
    if 64 * octVal c0 + 8 * octVal c1 + octVal c2 ≤ 255 then
      some (64 * octVal c0 + 8 * octVal c1 + octVal c2)
    else none
  else none

/-- Follows the claim's words, for comparison with the source: unescaping
that substitutes every valid 3-digit octal byte value 0-255. -/
def unescapeClaimedAux : Nat → List Nat → List Nat
  | 0, _ => []
  | _ + 1, [] => []
  | fuel + 1, b :: rest =>
    if b = 92 then
      match rest with
      | c0 :: c1 :: c2 :: rest2 =>
        match parseOctByteClaimed c0 c1 c2 with
        | some v => v :: unescapeClaimedAux fuel rest2
        | none => 92 :: unescapeClaimedAux fuel rest
      | _ => 92 :: unescapeClaimedAux fuel rest
    else b :: unescapeClaimedAux fuel rest

/-- Unescaping as the claim describes it. -/
def unescapeClaimed (s : List Nat) : List Nat := unescapeClaimedAux s.length s

/-! ### Byte-string and association-list utilities -/

/-- Model of Go's `strings.Split(s, sep)` for a one-byte separator: split at
every occurrence of `sep`, keeping empty pieces. -/
def splitOnByte (sep : Nat) : List Nat → List (List Nat)
  | [] => [[]]
  | b :: rest =>
    if b = sep then [] :: splitOnByte sep rest
    else
      match splitOnByte sep rest with
      | [] => [[b]]
      | f :: fs => (b :: f) :: fs

/-- Lookup in an association list, modelling a read `m[k]` of a Go map. -/
def lookupAssoc {A : Type} : List (List Nat × A) → List Nat → Option A
  | [], _ => none
  | (k, v) :: rest, k2 => if k = k2 then some v else lookupAssoc rest k2

/-- Insert-or-overwrite, modelling a Go map assignment `m[k] = v`. -/
def updateAssoc {A : Type} : List (List Nat × A) → List Nat → A → List (List Nat × A)
  | [], k, v => [(k, v)]
  | (k2, v2) :: rest, k, v =>
    if k2 = k then (k, v) :: rest else (k2, v2) :: updateAssoc rest k v

/-- Append one element to the list stored at a key, modelling the Go idiom
`m[k] = append(m[k], v)` for a map of slices. -/
def appendAssoc {A : Type} : List (List Nat × List A) → List Nat → A → List (List Nat × List A)
  | [], k, v => [(k, [v])]
  | (k2, vs) :: rest, k, v =>
    if k2 = k then (k2, vs ++ [v]) :: rest else (k2, vs) :: appendAssoc rest k v

/-! ### The mountinfo line parser (`parseMountInfoLine`) -/

/-- A mount record as produced by the parser and the table loader:
mountpoint path, filesystem type and backing device, each a byte string. -/
structure Mount where
  path : List Nat
  filesystemType : List Nat
  device : List Nat
deriving DecidableEq, Repr

/-- Fuel-indexed worker for the separator scan of `parseMountInfoLine`:
starting at index `n`, find the first field equal to the literal `"-"`
(the single byte 45), returning `none` when the field list is exhausted.
The fuel only makes the recursion structural. -/
def findSepAux (fields : List (List Nat)) : Nat → Nat → Option Nat
  | 0, _ => none
  | fuel + 1, n =>
    if h : n < fields.length then
      if fields.get ⟨n, h⟩ = [45] then some n else findSepAux fields fuel (n + 1)
    else none

/-- The separator scan of `parseMountInfoLine`: `n := 6; for fields[n] != "-"
{ n++; if n >= len(fields) { return nil } }`. -/
def findSep (fields : List (List Nat)) : Option Nat :=
  findSepAux fields fields.length 6

/-- Model of `parseMountInfoLine` from `filesystem/mountpoint.go`: split the
line on single spaces, require at least 10 fields, scan forward from field 6
for the `"-"` separator at index `n`, require `n+3 < len(fields)`, and build
the mount from the unescaped fields 4, `n+1` and `n+2`. -/
def parseMountInfoLine (line : List Nat) : Option Mount :=
  if (splitOnByte 32 line).length < 10 then none
  else
    match findSep (splitOnByte 32 line) with
    | none => none
    | some n =>
      if (splitOnByte 32 line).length ≤ n + 3 then none
      else
        some
          { path := unescapeString ((splitOnByte 32 line).getD 4 [])
            filesystemType := unescapeString ((splitOnByte 32 line).getD (n + 1) [])
            device := unescapeString ((splitOnByte 32 line).getD (n + 2) []) }

/-- Demo mountinfo line `"0 1 0:0 / /mnt rw shared:1 - ext4 /dev/sda rw"`. -/
def lineDemo : List Nat :=
  [48, 32, 49, 32, 48, 58, 48, 32, 47, 32, 47, 109, 110, 116, 32, 114, 119, 32,
   115, 104, 97, 114, 101, 100, 58, 49, 32, 45, 32, 101, 120, 116, 52, 32, 47,
   100, 101, 118, 47, 115, 100, 97, 32, 114, 119]

/-! ### The mount table (`loadMountInfo`) -/

/-- The external collaborators consumed by the loader, as oracle functions:
`canonicalizePath` (returns `none` on failure) and the `isDir` / `isDevice`
predicates. -/
structure Env where
  canonicalize : List Nat → Option (List Nat)
  isDir : List Nat → Bool
  isDevice : List Nat → Bool

/-- The two package-level maps of `mountpoint.go`: `mountsByPath` and
`mountsByDevice`. -/
structure MountTable where
  mountsByPath : List (List Nat × Mount)
  mountsByDevice : List (List Nat × List Mount)
deriving DecidableEq, Repr

/-- The empty table built at the start of `loadMountInfo`. -/
def emptyTable : MountTable := ⟨[], []⟩

/-- One iteration of the scanner loop of `loadMountInfo`: parse the line,
canonicalize the mountpoint, require a directory, store the record in
`mountsByPath` (overwriting an earlier record for the same path), then
canonicalize the device; if that succeeds and yields a device node, index
the record under the device, otherwise clear the record's device. Since Go
stores a pointer that is mutated afterwards, the record stored under the
path carries the final (canonical or empty) device. -/
def processLine (env : Env) (tbl : MountTable) (line : List Nat) : MountTable :=
  match parseMountInfoLine line with
  | none => tbl
  | some mnt =>
    match env.canonicalize mnt.path with
    | none => tbl
    | some cpath =>
      if env.isDir cpath then
        match env.canonicalize mnt.device with
        | some cdev =>
          if env.isDevice cdev then
            ⟨updateAssoc tbl.mountsByPath cpath ⟨cpath, mnt.filesystemType, cdev⟩,
             appendAssoc tbl.mountsByDevice cdev ⟨cpath, mnt.filesystemType, cdev⟩⟩
          else
            ⟨updateAssoc tbl.mountsByPath cpath ⟨cpath, mnt.filesystemType, []⟩,
             tbl.mountsByDevice⟩
        | none =>
          ⟨updateAssoc tbl.mountsByPath cpath ⟨cpath, mnt.filesystemType, []⟩,
           tbl.mountsByDevice⟩
      else tbl

/-- Model of `loadMountInfo`: scan the mountinfo lines in order, building the
two maps from the empty state. -/
def loadMountInfo (env : Env) (lines : List (List Nat)) : MountTable :=
  lines.foldl (processLine env) emptyTable

/-- The record a line contributes to the table, if any: the parsed mount with
canonicalized mountpoint (which must be a directory) and with its device
replaced by the canonical device path when that is a valid device node, or
by the empty string otherwise. Derived notion used to state what
`loadMountInfo` builds. -/
def validRecord (env : Env) (line : List Nat) : Option Mount :=
  match parseMountInfoLine line with
  | none => none
  | some mnt =>
    match env.canonicalize mnt.path with
    | none => none
    | some cpath =>
      if env.isDir cpath then
        match env.canonicalize mnt.device with
        | some cdev =>
          if env.isDevice cdev then some ⟨cpath, mnt.filesystemType, cdev⟩
          else some ⟨cpath, mnt.filesystemType, []⟩
        | none => some ⟨cpath, mnt.filesystemType, []⟩
      else none

/-! ### Mountpoint lookup (`FindMount` and `GetMount`) -/

/-- Outcome of a mountpoint query: the found record, or the
`ErrNotAMountpoint` error wrapping the path it names. -/
inductive MountResult
  | found (mnt : Mount)
  | notAMountpoint (path : List Nat)
deriving DecidableEq, Repr

/-- Model of the upward-walk loop of `FindMount`, after canonicalization and
table load: look the current path up; on a miss take `filepath.Dir`
(abstracted as the `parent` oracle) and retry, failing when the parent
equals the current path. Fuel only bounds the loop so that the recursion is
structural; `none` means the fuel ran out. -/
def findMountFrom (parent : List Nat → List Nat) (tbl : List (List Nat × Mount)) :
    Nat → List Nat → Option MountResult
  | 0, _ => none
  | fuel + 1, path =>
    match lookupAssoc tbl path with
    | some mnt => some (MountResult.found mnt)
    | none =>
      if parent path = path then some (MountResult.notAMountpoint path)
      else findMountFrom parent tbl fuel (parent path)

/-- Model of `GetMount` after canonicalization and table load: a single
direct lookup of the mountpoint, with no upward search. -/
def getMount (tbl : List (List Nat × Mount)) (mountpoint : List Nat) : MountResult :=
  match lookupAssoc tbl mountpoint with
  | some mnt => MountResult.found mnt
  | none => MountResult.notAMountpoint mountpoint

/-- Demo stand-in for `filepath.Dir` on the byte strings used in concrete
instances: drop the last byte, with any one-byte path (such as `"/"`) its
own parent. -/
def parentDemo (p : List Nat) : List Nat :=
  if p.length ≤ 1 then p else p.dropLast

/-! ### Link resolution (`getMountsFromLink` and `makeLink`) -/

/-- The supported token `"UUID"`. -/
def uuidToken : List Nat := [85, 85, 73, 68]

/-- The fixed lookup directory `"/dev/disk/by-uuid"`. -/
def uuidDirectory : List Nat :=
  [47, 100, 101, 118, 47, 100, 105, 115, 107, 47, 98, 121, 45, 117, 117, 105, 100]

/-- Join a list of path components with `/` separators. -/
def joinComps : List (List Nat) → List Nat
  | [] => []
  | [c] => c
  | c :: c2 :: rest => c ++ 47 :: joinComps (c2 :: rest)

/-- Modelled from the spec: lexical cleaning of the components of a rooted
slash-separated path, as Go's `path/filepath.Clean` does — empty and `"."`
components vanish, `".."` pops the previous component (and is dropped at
the root). -/
def cleanRootedComps (comps : List (List Nat)) : List (List Nat) :=
  (comps.foldl
    (fun stack c =>
      if c = [] then stack
      else if c = [46] then stack
      else if c = [46, 46] then stack.tail
      else c :: stack)
    []).reverse

/-- Modelled from the spec: Go's `filepath.Join(dir, value)` for a rooted
`dir`, i.e. `Clean(dir + "/" + value)`. -/
def filepathJoin (dir value : List Nat) : List Nat :=
  match cleanRootedComps (splitOnByte 47 (dir ++ 47 :: value)) with
  | [] => [47]
  | comps => 47 :: joinComps comps

/-- Modelled from the spec: Go's `filepath.Base` — strip trailing slashes,
then keep everything after the last slash, with `"."` for the empty path
and `"/"` for an all-slash path. -/
def filepathBase (p : List Nat) : List Nat :=
  if p = [] then [46]
  else
    match (p.reverse.dropWhile (fun b => decide (b = 47))).reverse with
    | [] => [47]
    | q => (q.reverse.takeWhile (fun b => decide (b ≠ 47))).reverse

/-- The `ErrFollowLink` error cases of `getMountsFromLink`, with the datum
each wraps. -/
inductive LinkError
  | invalidFormat (link : List Nat)
  | tokenUnsupported (token : List Nat)
  | notAUUID (value : List Nat)
  | noDeviceWithUUID (value : List Nat)
  | noMountsForDevice (device : List Nat)
deriving DecidableEq, Repr

/-- Outcome of `getMountsFromLink`. -/
inductive LinkResult
  | ok (mnts : List Mount)
  | error (e : LinkError)
deriving DecidableEq, Repr

/-- Model of `getMountsFromLink`: split the link on `"="` into exactly two
components, require the `UUID` token, guard the value by requiring that
`filepath.Base(filepath.Join(uuidDirectory, value))` still equals the value,
canonicalize the joined symlink path to a device path, and look that path up
in `mountsByDevice`; a missing entry is the error `"no mounts for device"`. -/
def getMountsFromLink (env : Env) (tbl : MountTable) (link : List Nat) : LinkResult :=
  match splitOnByte 61 link with
  | [token, value] =>
    if token ≠ uuidToken then LinkResult.error (LinkError.tokenUnsupported token)
    else if filepathBase (filepathJoin uuidDirectory value) ≠ value then
      LinkResult.error (LinkError.notAUUID value)
    else
      match env.canonicalize (filepathJoin uuidDirectory value) with
      | none => LinkResult.error (LinkError.noDeviceWithUUID value)
      | some devicePath =>
        match lookupAssoc tbl.mountsByDevice devicePath with
        | none => LinkResult.error (LinkError.noMountsForDevice devicePath)
        | some mnts => LinkResult.ok mnts
  | _ => LinkResult.error (LinkError.invalidFormat link)

/-- One entry of the UUID symlink directory: its name and whether it is a
symlink. -/
structure DirEntry where
  name : List Nat
  isSymlink : Bool
deriving DecidableEq, Repr

/-- The `ErrMakeLink` error cases of `makeLink`. -/
inductive MakeLinkError
  | tokenUnsupported (token : List Nat)
  | noDevice (path : List Nat)
  | readDirFailed
  | noUUID (device : List Nat)
deriving DecidableEq, Repr

/-- Outcome of `makeLink`. -/
inductive MakeLinkResult
  | ok (link : List Nat)
  | error (e : MakeLinkError)
deriving DecidableEq, Repr

/-- The scan loop of `makeLink`: skip entries that are not symlinks or whose
joined path fails to canonicalize; on the first entry whose canonical target
equals the mount's device, produce `"UUID=" + name`. -/
def findUUIDEntry (env : Env) (device : List Nat) : List DirEntry → Option (List Nat)
  | [] => none
  | e :: rest =>
    if e.isSymlink then
      match env.canonicalize (filepathJoin uuidDirectory e.name) with
      | none => findUUIDEntry env device rest
      | some devicePath =>
        if device = devicePath then some (uuidToken ++ 61 :: e.name)
        else findUUIDEntry env device rest
    else findUUIDEntry env device rest

/-- Model of `makeLink`: reject a token other than `UUID`, then a mount with
empty device, both before the directory read (`dir = none` models an
unreadable directory); then scan the entries for one resolving to the
mount's device. -/
def makeLink (env : Env) (dir : Option (List DirEntry)) (mnt : Mount) (token : List Nat) :
    MakeLinkResult :=
  if token ≠ uuidToken then MakeLinkResult.error (MakeLinkError.tokenUnsupported token)
  else if mnt.device = [] then MakeLinkResult.error (MakeLinkError.noDevice mnt.path)
  else
    match dir with
    | none => MakeLinkResult.error MakeLinkError.readDirFailed
    | some entries =>
      match findUUIDEntry env mnt.device entries with
      | some link => MakeLinkResult.ok link
      | none => MakeLinkResult.error (MakeLinkError.noUUID mnt.device)

/-- Demo environment whose oracles never succeed. -/
def envDemo : Env := ⟨fun _ => none, fun _ => false, fun _ => false⟩

/-- Demo environment: canonicalization is the identity, every path is a
directory, every nonempty path is a device node. -/
def envId : Env := ⟨fun p => some p, fun _ => true, fun p => decide (p ≠ [])⟩

/-- Demo device path `"/dev/sda"`. -/
def devSda : List Nat := [47, 100, 101, 118, 47, 115, 100, 97]

/-- Demo mountinfo line `"0 1 0:0 / /mnt1 rw shared:1 - ext4 /dev/sda rw"`. -/
def lineA : List Nat :=
  [48, 32, 49, 32, 48, 58, 48, 32, 47, 32, 47, 109, 110, 116, 49, 32, 114, 119, 32,
   115, 104, 97, 114, 101, 100, 58, 49, 32, 45, 32, 101, 120, 116, 52, 32, 47,
   100, 101, 118, 47, 115, 100, 97, 32, 114, 119]

/-- Demo mountinfo line `"0 1 0:0 / /mnt2 rw shared:1 - ext4 /dev/sda rw"`,
a bind mount of the same device at a second path. -/
def lineB : List Nat :=
  [48, 32, 49, 32, 48, 58, 48, 32, 47, 32, 47, 109, 110, 116, 50, 32, 114, 119, 32,
   115, 104, 97, 114, 101, 100, 58, 49, 32, 45, 32, 101, 120, 116, 52, 32, 47,
   100, 101, 118, 47, 115, 100, 97, 32, 114, 119]

/-- Demo mount record for the mountpoint `"/a"`. -/
def mntDemo : Mount := ⟨[47, 97], [101, 120, 116, 52], []⟩

/-- Demo mountpoint index containing only the mountpoint `"/a"`. -/
def tblDemo : List (List Nat × Mount) := [([47, 97], mntDemo)]

/-- Demo environment whose canonicalizer resolves every path to the device
`"/dev/sda"`. -/
def envSda : Env := ⟨fun _ => some devSda, fun _ => true, fun _ => true⟩

/-! ## Helper lemmas -/

/-- Step equation of the unescape worker: a byte other than a backslash is
copied verbatim. -/
theorem unescapeAux_cons_ne (fuel b : Nat) (l : List Nat) (hb : b ≠ 92) :
    unescapeAux (fuel + 1) (b :: l) = b :: unescapeAux fuel l := by
  show (if b = 92 then _ else b :: unescapeAux fuel l) = b :: unescapeAux fuel l
  rw [if_neg hb]

/-- Step equation of the unescape worker: a backslash whose following three
bytes parse is replaced by the decoded byte, skipping the digits. -/
theorem unescapeAux_cons_some (fuel c0 c1 c2 : Nat) (t : List Nat) (v : Int)
    (hp : parseOctInt8 c0 c1 c2 = some v) :
    unescapeAux (fuel + 1) (92 :: c0 :: c1 :: c2 :: t) =
      intToByte v :: unescapeAux fuel t := by
  show (match parseOctInt8 c0 c1 c2 with
        | some v => intToByte v :: unescapeAux fuel t
        | none => 92 :: unescapeAux fuel (c0 :: c1 :: c2 :: t)) =
      intToByte v :: unescapeAux fuel t
  rw [hp]

/-- Step equation of the unescape worker: a backslash whose following three
bytes fail to parse is copied verbatim and scanning resumes. -/
theorem unescapeAux_cons_fail (fuel c0 c1 c2 : Nat) (t : List Nat)
    (hp : parseOctInt8 c0 c1 c2 = none) :
    unescapeAux (fuel + 1) (92 :: c0 :: c1 :: c2 :: t) =
      92 :: unescapeAux fuel (c0 :: c1 :: c2 :: t) := by
  show (match parseOctInt8 c0 c1 c2 with
        | some v => intToByte v :: unescapeAux fuel t
        | none => 92 :: unescapeAux fuel (c0 :: c1 :: c2 :: t)) =
      92 :: unescapeAux fuel (c0 :: c1 :: c2 :: t)
  rw [hp]

/-- The unescape worker ignores the exact fuel as long as it is at least the
input length. -/
theorem unescapeAux_congr :
    ∀ (f1 f2 : Nat) (t : List Nat), t.length ≤ f1 → t.length ≤ f2 →
      unescapeAux f1 t = unescapeAux f2 t := by
  intro f1
  induction f1 with
  | zero =>
    intro f2 t h1 _
    have ht : t = [] := List.eq_nil_of_length_eq_zero (Nat.le_zero.mp h1)
    subst ht
    cases f2 <;> rfl
  | succ f1 ih =>
    intro f2 t h1 h2
    cases t with
    | nil => cases f2 <;> rfl
    | cons b rest =>
      cases f2 with
      | zero => simp at h2
      | succ f2 =>
        simp only [List.length_cons, Nat.succ_le_succ_iff] at h1 h2
        by_cases hb : b = 92
        · subst hb
          rcases rest with _ | ⟨c0, _ | ⟨c1, _ | ⟨c2, rest2⟩⟩⟩
          · show 92 :: unescapeAux f1 [] = 92 :: unescapeAux f2 []
            rw [ih f2 [] (by simp) (by simp)]
          · show 92 :: unescapeAux f1 [c0] = 92 :: unescapeAux f2 [c0]
            rw [ih f2 [c0] (by simpa using h1) (by simpa using h2)]
          · show 92 :: unescapeAux f1 [c0, c1] = 92 :: unescapeAux f2 [c0, c1]
            rw [ih f2 [c0, c1] (by simpa using h1) (by simpa using h2)]
          · simp only [List.length_cons] at h1 h2
            cases hp : parseOctInt8 c0 c1 c2 with
            | some v =>
              rw [unescapeAux_cons_some f1 c0 c1 c2 rest2 v hp,
                unescapeAux_cons_some f2 c0 c1 c2 rest2 v hp,
                ih f2 rest2 (by omega) (by omega)]
            | none =>
              rw [unescapeAux_cons_fail f1 c0 c1 c2 rest2 hp,
                unescapeAux_cons_fail f2 c0 c1 c2 rest2 hp,
                ih f2 (c0 :: c1 :: c2 :: rest2) (by simp; omega) (by simp; omega)]
        · rw [unescapeAux_cons_ne f1 b rest hb, unescapeAux_cons_ne f2 b rest hb,
            ih f2 rest h1 h2]

/-- A byte other than a backslash is copied verbatim. -/
theorem unescape_cons_ne (b : Nat) (l : List Nat) (hb : b ≠ 92) :
    unescapeString (b :: l) = b :: unescapeString l :=
  unescapeAux_cons_ne l.length b l hb

/-- A backslash whose following three bytes parse is replaced by the decoded
byte, skipping the digits. -/
theorem unescape_cons_some (c0 c1 c2 : Nat) (t : List Nat) (v : Int)
    (h : parseOctInt8 c0 c1 c2 = some v) :
    unescapeString (92 :: c0 :: c1 :: c2 :: t) = intToByte v :: unescapeString t := by
  show unescapeAux (t.length + 3 + 1) (92 :: c0 :: c1 :: c2 :: t) = _
  rw [unescapeAux_cons_some (t.length + 3) c0 c1 c2 t v h,
    unescapeAux_congr (t.length + 3) t.length t (by omega) (Nat.le_refl _)]
  rfl

/-- A backslash whose following three bytes fail to parse is copied
verbatim, and scanning resumes at the next byte. -/
theorem unescape_cons_fail (c0 c1 c2 : Nat) (t : List Nat)
    (h : parseOctInt8 c0 c1 c2 = none) :
    unescapeString (92 :: c0 :: c1 :: c2 :: t) =
      92 :: unescapeString (c0 :: c1 :: c2 :: t) := by
  show unescapeAux (t.length + 3 + 1) (92 :: c0 :: c1 :: c2 :: t) = _
  rw [unescapeAux_cons_fail (t.length + 3) c0 c1 c2 t h]
  rfl

/-- A backslash with fewer than three following bytes is copied verbatim. -/
theorem unescape_cons_short (l : List Nat) (h : l.length < 3) :
    unescapeString (92 :: l) = 92 :: unescapeString l := by
  rcases l with _ | ⟨c0, _ | ⟨c1, _ | ⟨c2, t⟩⟩⟩
  · rfl
  · rfl
  · rfl
  · simp only [List.length_cons] at h; omega

/-- Unescaping inverts the kernel's escaping on every byte string. -/
theorem unescape_kernelEscape (s : List Nat) :
    unescapeString (kernelEscape s) = s := by
  induction s with
  | nil => rfl
  | cons b t ih =>
    by_cases hb : b = 32 ∨ b = 9 ∨ b = 10 ∨ b = 92
    · rcases hb with h | h | h | h <;> subst h
      · have he : kernelEscape (32 :: t) = 92 :: 48 :: 52 :: 48 :: kernelEscape t := rfl
        rw [he, unescape_cons_some 48 52 48 _ 32 (by decide), ih]; rfl
      · have he : kernelEscape (9 :: t) = 92 :: 48 :: 49 :: 49 :: kernelEscape t := rfl
        rw [he, unescape_cons_some 48 49 49 _ 9 (by decide), ih]; rfl
      · have he : kernelEscape (10 :: t) = 92 :: 48 :: 49 :: 50 :: kernelEscape t := rfl
        rw [he, unescape_cons_some 48 49 50 _ 10 (by decide), ih]; rfl
      · have he : kernelEscape (92 :: t) = 92 :: 49 :: 51 :: 52 :: kernelEscape t := rfl
        rw [he, unescape_cons_some 49 51 52 _ 92 (by decide), ih]; rfl
    · push_neg at hb
      have he : kernelEscape (b :: t) = b :: kernelEscape t := by
        show escapeByte b ++ kernelEscape t = b :: kernelEscape t
        rw [escapeByte, if_neg]
        · rfl
        · push_neg
          exact hb
      rw [he, unescape_cons_ne b _ hb.2.2.2, ih]

/-! ## Claim C1 -/

/-- C1 (counterexample): the claim predicts that the backslash escape
`"\377"` (bytes 92, 51, 55, 55), a valid 3-digit octal byte value 255,
is substituted by the byte 255; the source's `unescapeString` instead
copies the backslash and the digits verbatim, because
`strconv.ParseInt(s, 8, 8)` rejects octal values above 127 (signed 8-bit
range). -/
theorem C1_counterexample :
    unescapeClaimed [92, 51, 55, 55] = [255] ∧
    unescapeString [92, 51, 55, 55] = [92, 51, 55, 55] ∧
    unescapeString [92, 51, 55, 55] ≠ unescapeClaimed [92, 51, 55, 55] := by
  decide

/-- C1 (amended): unescaping scans every byte; at a backslash followed by at
least three characters, the 3-character slice is parsed as Go's
`strconv.ParseInt(·, 8, 8)` does — as a signed octal 8-bit value, so plain
3-digit values 0-127 or a sign followed by two octal digits — and on
success the value's byte modulo 256 is substituted and the 3 consumed
characters are skipped; otherwise (including plain 3-digit values 128-255)
the backslash is copied verbatim. Composed with the kernel's escaping of
space, tab, newline and backslash, unescape after escape is the identity on
all byte strings, including invalid UTF-8. -/
theorem C1_theorem :
    (∀ s : List Nat, unescapeString (kernelEscape s) = s) ∧
    (∀ c0 c1 c2 : Nat, ∀ t : List Nat, ∀ v : Int,
      parseOctInt8 c0 c1 c2 = some v →
        unescapeString (92 :: c0 :: c1 :: c2 :: t) = intToByte v :: unescapeString t) ∧
    (∀ c0 c1 c2 : Nat, ∀ t : List Nat,
      parseOctInt8 c0 c1 c2 = none →
        unescapeString (92 :: c0 :: c1 :: c2 :: t) =
          92 :: unescapeString (c0 :: c1 :: c2 :: t)) ∧
    (∀ l : List Nat, l.length < 3 → unescapeString (92 :: l) = 92 :: unescapeString l) ∧
    (∀ b : Nat, ∀ l : List Nat, b ≠ 92 → unescapeString (b :: l) = b :: unescapeString l) :=
  ⟨unescape_kernelEscape, unescape_cons_some, unescape_cons_fail,
    unescape_cons_short, unescape_cons_ne⟩

/-- C1 (witness): the escape `"\134"` decodes to the backslash byte 92 in a
concrete string. -/
theorem C1_witness :
    parseOctInt8 49 51 52 = some 92 ∧
    unescapeString [92, 49, 51, 52, 97] = [92, 97] :=
  ⟨by decide, (C1_theorem.2.1 49 51 52 [97] 92 (by decide)).trans (by decide)⟩

/-! ## The separator scan -/

/-- The separator scan succeeds with index `n` exactly when `n` is the least
index at or beyond the start holding the literal `"-"` field (given enough
fuel). -/
theorem findSepAux_some_iff (fields : List (List Nat)) :
    ∀ (fuel k n : Nat), fields.length ≤ k + fuel →
      (findSepAux fields fuel k = some n ↔
        (k ≤ n ∧ fields.getD n [] = [45] ∧
          ∀ i, i < n → k ≤ i → fields.getD i [] ≠ [45])) := by
  intro fuel
  induction fuel with
  | zero =>
    intro k n hlen
    simp only [Nat.add_zero] at hlen
    constructor
    · intro h
      simp [findSepAux] at h
    · rintro ⟨hkn, hdash, -⟩
      have hn : n < fields.length := by
        by_contra hge
        push_neg at hge
        rw [List.getD_eq_default _ _ hge] at hdash
        simp at hdash
      omega
  | succ fuel ih =>
    intro k n hlen
    have hunf : findSepAux fields (fuel + 1) k =
        if h : k < fields.length then
          (if fields.get ⟨k, h⟩ = [45] then some k
           else findSepAux fields fuel (k + 1))
        else none := rfl
    by_cases hk : k < fields.length
    · rw [hunf, dif_pos hk]
      have hgetD : fields.getD k [] = fields.get ⟨k, hk⟩ := List.getD_eq_get _ _ hk
      by_cases hdk : fields.get ⟨k, hk⟩ = [45]
      · rw [if_pos hdk]
        constructor
        · intro h
          obtain rfl : k = n := Option.some.inj h
          exact ⟨Nat.le_refl _, by rw [hgetD]; exact hdk, fun i hi hki => by omega⟩
        · rintro ⟨hkn, hdash, hleast⟩
          rcases Nat.eq_or_lt_of_le hkn with rfl | hlt
          · rfl
          · exact absurd (by rw [hgetD]; exact hdk) (hleast k hlt (Nat.le_refl _))
      · rw [if_neg hdk, ih (k + 1) n (by omega)]
        constructor
        · rintro ⟨hkn, hdash, hleast⟩
          refine ⟨by omega, hdash, fun i hi hki => ?_⟩
          rcases Nat.eq_or_lt_of_le hki with rfl | hlt
          · rw [hgetD]; exact hdk
          · exact hleast i hi hlt
        · rintro ⟨hkn, hdash, hleast⟩
          have hne : n ≠ k := by
            rintro rfl
            rw [hgetD] at hdash
            exact hdk hdash
          exact ⟨by omega, hdash, fun i hi hki => hleast i hi (by omega)⟩
    · rw [hunf, dif_neg hk]
      push_neg at hk
      constructor
      · intro h
        simp at h
      · rintro ⟨hkn, hdash, -⟩
        have hn : n < fields.length := by
          by_contra hge
          push_neg at hge
          rw [List.getD_eq_default _ _ hge] at hdash
          simp at hdash
        omega

/-- The separator scan fails exactly when no field in range holds the
literal `"-"` (given enough fuel). -/
theorem findSepAux_none_iff (fields : List (List Nat)) :
    ∀ (fuel k : Nat), fields.length ≤ k + fuel →
      (findSepAux fields fuel k = none ↔
        ∀ i, i < fields.length → k ≤ i → fields.getD i [] ≠ [45]) := by
  intro fuel
  induction fuel with
  | zero =>
    intro k hlen
    simp only [Nat.add_zero] at hlen
    constructor
    · intro _ i hi hki
      exact absurd hi (by omega)
    · intro _
      rfl
  | succ fuel ih =>
    intro k hlen
    have hunf : findSepAux fields (fuel + 1) k =
        if h : k < fields.length then
          (if fields.get ⟨k, h⟩ = [45] then some k
           else findSepAux fields fuel (k + 1))
        else none := rfl
    by_cases hk : k < fields.length
    · rw [hunf, dif_pos hk]
      have hgetD : fields.getD k [] = fields.get ⟨k, hk⟩ := List.getD_eq_get _ _ hk
      by_cases hdk : fields.get ⟨k, hk⟩ = [45]
      · rw [if_pos hdk]
        constructor
        · intro h
          simp at h
        · intro hall
          exact absurd (by rw [hgetD]; exact hdk) (hall k hk (Nat.le_refl _))
      · rw [if_neg hdk, ih (k + 1) (by omega)]
        constructor
        · intro hall i hi hki
          rcases Nat.eq_or_lt_of_le hki with rfl | hlt
          · rw [hgetD]; exact hdk
          · exact hall i hi hlt
        · intro hall i hi hki
          exact hall i hi (by omega)
    · rw [hunf, dif_neg hk]
      push_neg at hk
      constructor
      · intro _ i hi hki
        exact absurd hi (by omega)
      · intro _
        rfl

/-- Characterization of `findSep` success: the least `"-"` field at or
beyond index 6. -/
theorem findSep_some_iff (fields : List (List Nat)) (n : Nat) :
    findSep fields = some n ↔
      (6 ≤ n ∧ fields.getD n [] = [45] ∧
        ∀ i, i < n → 6 ≤ i → fields.getD i [] ≠ [45]) :=
  findSepAux_some_iff fields fields.length 6 n (by omega)

/-- Characterization of `findSep` failure: no `"-"` field at or beyond
index 6. -/
theorem findSep_none_iff (fields : List (List Nat)) :
    findSep fields = none ↔
      ∀ i, i < fields.length → 6 ≤ i → fields.getD i [] ≠ [45] :=
  findSepAux_none_iff fields fields.length 6 (by omega)

/-- Least `"-"` indices are unique. -/
theorem leastSep_unique (F : List (List Nat)) (n m : Nat)
    (hn6 : 6 ≤ n) (hnd : F.getD n [] = [45])
    (hnl : ∀ i, i < n → 6 ≤ i → F.getD i [] ≠ [45])
    (hm6 : 6 ≤ m) (hmd : F.getD m [] = [45])
    (hml : ∀ i, i < m → 6 ≤ i → F.getD i [] ≠ [45]) : n = m := by
  rcases Nat.lt_trichotomy n m with h | h | h
  · exact absurd hnd (hml n h hn6)
  · exact h
  · exact absurd hmd (hnl m h hm6)

/-- Unfolding of `parseMountInfoLine` once the separator index is known. -/
theorem parseMountInfoLine_of_sep (line : List Nat) (n : Nat)
    (h10 : ¬(splitOnByte 32 line).length < 10)
    (hsep : findSep (splitOnByte 32 line) = some n) :
    parseMountInfoLine line =
      if (splitOnByte 32 line).length ≤ n + 3 then none
      else
        some { path := unescapeString ((splitOnByte 32 line).getD 4 [])
               filesystemType := unescapeString ((splitOnByte 32 line).getD (n + 1) [])
               device := unescapeString ((splitOnByte 32 line).getD (n + 2) []) } := by
  unfold parseMountInfoLine
  rw [if_neg h10, hsep]

/-! ## Claim C2 -/

/-- C2: the line parser splits the raw line on single spaces and returns
invalid (`none`) exactly when there are fewer than 10 fields, or no field
from index 6 onward equals the literal `"-"`, or fewer than 3 fields follow
the first such separator; otherwise it returns the mount whose path,
filesystem type and device are the unescaped fields 4, `n+1` and `n+2`,
where `n` is the index of the first separator. -/
theorem C2_theorem (line : List Nat) :
    (parseMountInfoLine line = none ↔
      ((splitOnByte 32 line).length < 10 ∨
       (∀ i, i < (splitOnByte 32 line).length → 6 ≤ i →
         (splitOnByte 32 line).getD i [] ≠ [45]) ∨
       (∃ n, 6 ≤ n ∧ (splitOnByte 32 line).getD n [] = [45] ∧
         (∀ i, i < n → 6 ≤ i → (splitOnByte 32 line).getD i [] ≠ [45]) ∧
         (splitOnByte 32 line).length ≤ n + 3))) ∧
    (∀ n : Nat, 10 ≤ (splitOnByte 32 line).length → 6 ≤ n →
      (splitOnByte 32 line).getD n [] = [45] →
      (∀ i, i < n → 6 ≤ i → (splitOnByte 32 line).getD i [] ≠ [45]) →
      n + 3 < (splitOnByte 32 line).length →
      parseMountInfoLine line =
        some { path := unescapeString ((splitOnByte 32 line).getD 4 [])
               filesystemType := unescapeString ((splitOnByte 32 line).getD (n + 1) [])
               device := unescapeString ((splitOnByte 32 line).getD (n + 2) []) }) := by
  constructor
  · by_cases h10 : (splitOnByte 32 line).length < 10
    · have hnone : parseMountInfoLine line = none := by
        unfold parseMountInfoLine
        rw [if_pos h10]
      exact iff_of_true hnone (Or.inl h10)
    · cases hsep : findSep (splitOnByte 32 line) with
      | none =>
        have hnone : parseMountInfoLine line = none := by
          unfold parseMountInfoLine
          rw [if_neg h10, hsep]
        exact iff_of_true hnone (Or.inr (Or.inl ((findSep_none_iff _).mp hsep)))
      | some n =>
        obtain ⟨hn6, hnd, hnl⟩ := (findSep_some_iff _ n).mp hsep
        by_cases hn3 : (splitOnByte 32 line).length ≤ n + 3
        · have hnone : parseMountInfoLine line = none := by
            rw [parseMountInfoLine_of_sep line n h10 hsep, if_pos hn3]
          exact iff_of_true hnone (Or.inr (Or.inr ⟨n, hn6, hnd, hnl, hn3⟩))
        · apply iff_of_false
          · rw [parseMountInfoLine_of_sep line n h10 hsep, if_neg hn3]
            simp
          · rintro (h | h | ⟨m, hm6, hmd, hml, hm3⟩)
            · exact h10 h
            · have hnlen : n < (splitOnByte 32 line).length := by
                by_contra hge
                push_neg at hge
                rw [List.getD_eq_default _ _ hge] at hnd
                simp at hnd
              exact h n hnlen hn6 hnd
            · have := leastSep_unique _ n m hn6 hnd hnl hm6 hmd hml
              omega
  · intro n h10 hn6 hnd hnl hn3
    have hsep : findSep (splitOnByte 32 line) = some n :=
      (findSep_some_iff _ n).mpr ⟨hn6, hnd, hnl⟩
    rw [parseMountInfoLine_of_sep line n (by omega) hsep, if_neg (by omega)]

/-- C2 (witness): the demo line parses to the expected mount, with the
separator at index 7. -/
theorem C2_witness :
    (10 ≤ (splitOnByte 32 lineDemo).length ∧
      (splitOnByte 32 lineDemo).getD 7 [] = [45] ∧
      7 + 3 < (splitOnByte 32 lineDemo).length) ∧
    parseMountInfoLine lineDemo =
      some { path := [47, 109, 110, 116], filesystemType := [101, 120, 116, 52],
             device := [47, 100, 101, 118, 47, 115, 100, 97] } :=
  ⟨by decide,
    ((C2_theorem lineDemo).2 7 (by decide) (by decide) (by decide)
      (by decide) (by decide)).trans (by decide)⟩

/-! ## Association-list lemmas -/

/-- Lookup after a Go-map assignment. -/
theorem lookupAssoc_updateAssoc {A : Type} (l : List (List Nat × A)) (k : List Nat)
    (v : A) (k2 : List Nat) :
    lookupAssoc (updateAssoc l k v) k2 =
      if k = k2 then some v else lookupAssoc l k2 := by
  induction l with
  | nil => rfl
  | cons p rest ih =>
    obtain ⟨a, b⟩ := p
    by_cases hak : a = k
    · subst hak
      show lookupAssoc (if a = a then (a, v) :: rest else (a, b) :: updateAssoc rest a v) k2 = _
      rw [if_pos rfl]
      show (if a = k2 then some v else lookupAssoc rest k2) = _
      by_cases h2 : a = k2
      · rw [if_pos h2, if_pos h2]
      · rw [if_neg h2, if_neg h2]
        show lookupAssoc rest k2 = lookupAssoc ((a, b) :: rest) k2
        show lookupAssoc rest k2 = if a = k2 then some b else lookupAssoc rest k2
        rw [if_neg h2]
    · show lookupAssoc (if a = k then (k, v) :: rest else (a, b) :: updateAssoc rest k v) k2 = _
      rw [if_neg hak]
      show (if a = k2 then some b else lookupAssoc (updateAssoc rest k v) k2) = _
      by_cases ha2 : a = k2
      · have hk2 : k ≠ k2 := fun h => hak (ha2.trans h.symm)
        rw [if_pos ha2, if_neg hk2]
        show some b = if a = k2 then some b else lookupAssoc rest k2
        rw [if_pos ha2]
      · rw [if_neg ha2, ih]
        by_cases h2 : k = k2
        · rw [if_pos h2, if_pos h2]
        · rw [if_neg h2, if_neg h2]
          show lookupAssoc rest k2 = if a = k2 then some b else lookupAssoc rest k2
          rw [if_neg ha2]

/-- Lookup after a Go `append`-into-map step. -/
theorem lookupAssoc_appendAssoc {A : Type} (l : List (List Nat × List A)) (k : List Nat)
    (v : A) (k2 : List Nat) :
    lookupAssoc (appendAssoc l k v) k2 =
      if k = k2 then some ((lookupAssoc l k).getD [] ++ [v])
      else lookupAssoc l k2 := by
  induction l with
  | nil => rfl
  | cons p rest ih =>
    obtain ⟨a, bs⟩ := p
    by_cases hak : a = k
    · subst hak
      show lookupAssoc (if a = a then (a, bs ++ [v]) :: rest else _) k2 = _
      rw [if_pos rfl]
      show (if a = k2 then some (bs ++ [v]) else lookupAssoc rest k2) = _
      have hself : lookupAssoc ((a, bs) :: rest) a = some bs := by
        show (if a = a then some bs else lookupAssoc rest a) = some bs
        rw [if_pos rfl]
      rw [hself]
      by_cases h2 : a = k2
      · rw [if_pos h2, if_pos h2]
        rfl
      · rw [if_neg h2, if_neg h2]
        show lookupAssoc rest k2 = if a = k2 then some bs else lookupAssoc rest k2
        rw [if_neg h2]
    · show lookupAssoc (if a = k then _ else (a, bs) :: appendAssoc rest k v) k2 = _
      rw [if_neg hak]
      show (if a = k2 then some bs else lookupAssoc (appendAssoc rest k v) k2) = _
      have hka : lookupAssoc ((a, bs) :: rest) k = lookupAssoc rest k := by
        show (if a = k then some bs else lookupAssoc rest k) = lookupAssoc rest k
        rw [if_neg hak]
      rw [hka]
      by_cases ha2 : a = k2
      · have hk2 : k ≠ k2 := fun h => hak (ha2.trans h.symm)
        rw [if_pos ha2, if_neg hk2]
        show some bs = if a = k2 then some bs else lookupAssoc rest k2
        rw [if_pos ha2]
      · rw [if_neg ha2, ih]
        by_cases h2 : k = k2
        · rw [if_pos h2, if_pos h2]
        · rw [if_neg h2, if_neg h2]
          show lookupAssoc rest k2 = if a = k2 then some bs else lookupAssoc rest k2
          rw [if_neg ha2]

/-- Keys produced by a Go-map assignment. -/
theorem updateAssoc_keys_sub {A : Type} (l : List (List Nat × A)) (k : List Nat) (v : A) :
    ∀ a, a ∈ (updateAssoc l k v).map Prod.fst → a = k ∨ a ∈ l.map Prod.fst := by
  induction l with
  | nil =>
    intro a ha
    simp [updateAssoc] at ha
    exact Or.inl ha
  | cons p rest ih =>
    obtain ⟨a2, b⟩ := p
    intro a ha
    by_cases hak : a2 = k
    · rw [show updateAssoc ((a2, b) :: rest) k v = (k, v) :: rest from by
        show (if a2 = k then _ else _) = _; rw [if_pos hak]] at ha
      simp at ha
      rcases ha with rfl | ha
      · exact Or.inl rfl
      · exact Or.inr (by simp; exact Or.inr (by simpa using ha))
    · rw [show updateAssoc ((a2, b) :: rest) k v = (a2, b) :: updateAssoc rest k v from by
        show (if a2 = k then _ else _) = _; rw [if_neg hak]] at ha
      simp at ha
      rcases ha with rfl | ha
      · exact Or.inr (by simp)
      · rcases ih a (by simpa using ha) with h | h
        · exact Or.inl h
        · exact Or.inr (by simp; exact Or.inr (by simpa using h))

/-- A Go-map assignment preserves distinctness of keys. -/
theorem updateAssoc_keys_nodup {A : Type} (l : List (List Nat × A)) (k : List Nat) (v : A)
    (h : (l.map Prod.fst).Nodup) : ((updateAssoc l k v).map Prod.fst).Nodup := by
  induction l with
  | nil => simp [updateAssoc]
  | cons p rest ih =>
    obtain ⟨a2, b⟩ := p
    simp only [List.map_cons, List.nodup_cons] at h
    by_cases hak : a2 = k
    · rw [show updateAssoc ((a2, b) :: rest) k v = (k, v) :: rest from by
        show (if a2 = k then _ else _) = _; rw [if_pos hak]]
      simp only [List.map_cons, List.nodup_cons]
      exact ⟨by rw [← hak]; exact h.1, h.2⟩
    · rw [show updateAssoc ((a2, b) :: rest) k v = (a2, b) :: updateAssoc rest k v from by
        show (if a2 = k then _ else _) = _; rw [if_neg hak]]
      simp only [List.map_cons, List.nodup_cons]
      refine ⟨fun hmem => ?_, ih h.2⟩
      rcases updateAssoc_keys_sub rest k v a2 hmem with rfl | hmem2
      · exact hak rfl
      · exact h.1 hmem2

/-- Last element of a nonempty list, via the tail. -/
theorem getLast?_cons_eq {A : Type} (a : A) (l : List A) :
    (a :: l).getLast? =
      match l.getLast? with
      | some x => some x
      | none => some a := by
  induction l generalizing a with
  | nil => rfl
  | cons b t ih =>
    rw [List.getLast?_cons_cons, ih b]
    cases t.getLast? <;> rfl

/-! ## Loader step and fold lemmas -/

/-- The mountpoint index after one scanner step: unchanged for a dropped
line, otherwise updated at the record's canonical path. -/
theorem processLine_path (env : Env) (tbl : MountTable) (line : List Nat) :
    (processLine env tbl line).mountsByPath =
      match validRecord env line with
      | none => tbl.mountsByPath
      | some m => updateAssoc tbl.mountsByPath m.path m := by
  cases hp : parseMountInfoLine line with
  | none => simp only [processLine, validRecord, hp]
  | some mnt =>
    cases hc : env.canonicalize mnt.path with
    | none => simp only [processLine, validRecord, hp, hc]
    | some cpath =>
      by_cases hdir : env.isDir cpath
      · cases hd2 : env.canonicalize mnt.device with
        | none => simp only [processLine, validRecord, hp, hc, hd2, if_pos hdir]
        | some cdev =>
          by_cases hdev : env.isDevice cdev
          · simp only [processLine, validRecord, hp, hc, hd2, if_pos hdir, if_pos hdev]
          · simp only [processLine, validRecord, hp, hc, hd2, if_pos hdir, if_neg hdev]
      · simp only [processLine, validRecord, hp, hc, if_neg hdir]

/-- The device index lookup at a nonempty key after one scanner step:
extended by the record exactly when the record's final device equals the
key. -/
theorem processLine_device_lookup (env : Env) (tbl : MountTable) (line : List Nat)
    (d : List Nat) (hd : d ≠ []) :
    lookupAssoc (processLine env tbl line).mountsByDevice d =
      match validRecord env line with
      | none => lookupAssoc tbl.mountsByDevice d
      | some m =>
        if m.device = d then
          some ((lookupAssoc tbl.mountsByDevice d).getD [] ++ [m])
        else lookupAssoc tbl.mountsByDevice d := by
  cases hp : parseMountInfoLine line with
  | none => simp only [processLine, validRecord, hp]
  | some mnt =>
    cases hc : env.canonicalize mnt.path with
    | none => simp only [processLine, validRecord, hp, hc]
    | some cpath =>
      by_cases hdir : env.isDir cpath
      · cases hd2 : env.canonicalize mnt.device with
        | none =>
          simp only [processLine, validRecord, hp, hc, hd2, if_pos hdir]
          rw [if_neg (fun h => hd h.symm)]
        | some cdev =>
          by_cases hdev : env.isDevice cdev
          · simp only [processLine, validRecord, hp, hc, hd2, if_pos hdir, if_pos hdev,
              lookupAssoc_appendAssoc]
            by_cases hcd : cdev = d
            · subst hcd
              rfl
            · rw [if_neg hcd, if_neg hcd]
          · simp only [processLine, validRecord, hp, hc, hd2, if_pos hdir, if_neg hdev]
            rw [if_neg (fun h => hd h.symm)]
      · simp only [processLine, validRecord, hp, hc, if_neg hdir]

/-- The mountpoint index built by the scanner fold: a lookup returns the
last valid record in scan order for the queried path, falling back to the
initial table. -/
theorem load_path_lookup (env : Env) :
    ∀ (lines : List (List Nat)) (tbl : MountTable) (p : List Nat),
      lookupAssoc (lines.foldl (processLine env) tbl).mountsByPath p =
        match ((lines.filterMap (validRecord env)).filter
            (fun m => decide (m.path = p))).getLast? with
        | some m => some m
        | none => lookupAssoc tbl.mountsByPath p := by
  intro lines
  induction lines with
  | nil => intro tbl p; rfl
  | cons line rest ih =>
    intro tbl p
    show lookupAssoc (rest.foldl (processLine env) (processLine env tbl line)).mountsByPath p = _
    rw [ih (processLine env tbl line) p, processLine_path env tbl line]
    cases hv : validRecord env line with
    | none =>
      rw [List.filterMap_cons_none hv]
    | some m =>
      rw [List.filterMap_cons_some hv]
      by_cases hmp : m.path = p
      · rw [List.filter_cons_of_pos (by simpa using hmp), getLast?_cons_eq]
        cases ((rest.filterMap (validRecord env)).filter
            (fun m => decide (m.path = p))).getLast? with
        | none =>
          show lookupAssoc (updateAssoc tbl.mountsByPath m.path m) p = some m
          rw [lookupAssoc_updateAssoc, if_pos hmp]
        | some x => rfl
      · rw [List.filter_cons_of_neg (by simpa using hmp)]
        cases ((rest.filterMap (validRecord env)).filter
            (fun m => decide (m.path = p))).getLast? with
        | none =>
          show lookupAssoc (updateAssoc tbl.mountsByPath m.path m) p =
            lookupAssoc tbl.mountsByPath p
          rw [lookupAssoc_updateAssoc, if_neg hmp]
        | some x => rfl

/-- The scanner fold preserves distinctness of mountpoint-index keys. -/
theorem load_path_nodup (env : Env) :
    ∀ (lines : List (List Nat)) (tbl : MountTable),
      (tbl.mountsByPath.map Prod.fst).Nodup →
      ((lines.foldl (processLine env) tbl).mountsByPath.map Prod.fst).Nodup := by
  intro lines
  induction lines with
  | nil => intro tbl h; exact h
  | cons line rest ih =>
    intro tbl h
    apply ih
    rw [processLine_path env tbl line]
    cases validRecord env line with
    | none => exact h
    | some m => exact updateAssoc_keys_nodup _ _ _ h

/-- The device index built by the scanner fold: a lookup at a nonempty key
returns all valid records in scan order whose final device equals the key,
appended to the initial table's entry. -/
theorem load_device_lookup (env : Env) (d : List Nat) (hd : d ≠ []) :
    ∀ (lines : List (List Nat)) (tbl : MountTable),
      lookupAssoc (lines.foldl (processLine env) tbl).mountsByDevice d =
        match (lines.filterMap (validRecord env)).filter
            (fun m => decide (m.device = d)) with
        | [] => lookupAssoc tbl.mountsByDevice d
        | ms => some ((lookupAssoc tbl.mountsByDevice d).getD [] ++ ms) := by
  intro lines
  induction lines with
  | nil => intro tbl; rfl
  | cons line rest ih =>
    intro tbl
    show lookupAssoc (rest.foldl (processLine env) (processLine env tbl line)).mountsByDevice d = _
    rw [ih (processLine env tbl line)]
    cases hv : validRecord env line with
    | none =>
      have hstep : lookupAssoc (processLine env tbl line).mountsByDevice d =
          lookupAssoc tbl.mountsByDevice d := by
        rw [processLine_device_lookup env tbl line d hd, hv]
      rw [hstep, List.filterMap_cons_none hv]
    | some m =>
      have hstep : lookupAssoc (processLine env tbl line).mountsByDevice d =
          if m.device = d then
            some ((lookupAssoc tbl.mountsByDevice d).getD [] ++ [m])
          else lookupAssoc tbl.mountsByDevice d := by
        rw [processLine_device_lookup env tbl line d hd, hv]
      rw [List.filterMap_cons_some hv]
      by_cases hmd : m.device = d
      · rw [hstep, if_pos hmd, List.filter_cons_of_pos (by simpa using hmd)]
        cases hF : (rest.filterMap (validRecord env)).filter
            (fun m => decide (m.device = d)) with
        | nil => rfl
        | cons x xs =>
          show some (((lookupAssoc tbl.mountsByDevice d).getD [] ++ [m]) ++ x :: xs) =
            some ((lookupAssoc tbl.mountsByDevice d).getD [] ++ m :: x :: xs)
          rw [List.append_assoc]
          rfl
      · rw [hstep, if_neg hmd, List.filter_cons_of_neg (by simpa using hmd)]

/-! ## Claim C4 -/

/-- C4: after a load, the mountpoint index maps each canonical directory
path to exactly the last valid record in scan order whose canonical
mountpoint is that path (later records overwrite earlier ones), and the
index keys are distinct, so each path maps to exactly one mount. -/
theorem C4_theorem (env : Env) (lines : List (List Nat)) (p : List Nat) :
    lookupAssoc (loadMountInfo env lines).mountsByPath p =
      ((lines.filterMap (validRecord env)).filter
        (fun m => decide (m.path = p))).getLast? ∧
    ((loadMountInfo env lines).mountsByPath.map Prod.fst).Nodup := by
  constructor
  · show lookupAssoc (lines.foldl (processLine env) emptyTable).mountsByPath p = _
    rw [load_path_lookup env lines emptyTable p]
    cases ((lines.filterMap (validRecord env)).filter
        (fun m => decide (m.path = p))).getLast? with
    | none => rfl
    | some m => rfl
  · exact load_path_nodup env lines emptyTable (by simp [emptyTable])

/-! ## Claim C7 -/

/-- C7: after a load, the device index maps each nonempty canonical device
path to the list of all valid records in scan order whose device
canonicalized to that path (absent when there are none); in particular for
two bind-mount records of one device, both appear, in scan order. -/
theorem C7_theorem (env : Env) (lines : List (List Nat)) (d : List Nat) (hd : d ≠ []) :
    lookupAssoc (loadMountInfo env lines).mountsByDevice d =
      match (lines.filterMap (validRecord env)).filter
          (fun m => decide (m.device = d)) with
      | [] => none
      | ms => some ms := by
  show lookupAssoc (lines.foldl (processLine env) emptyTable).mountsByDevice d = _
  rw [load_device_lookup env d hd lines emptyTable]
  cases (lines.filterMap (validRecord env)).filter
      (fun m => decide (m.device = d)) with
  | nil => rfl
  | cons x xs =>
    show some (((lookupAssoc ([] : List (List Nat × List Mount)) d).getD []) ++ x :: xs) =
      some (x :: xs)
    rfl

/-- C7 (witness): loading the two demo bind-mount lines indexes both
records under `"/dev/sda"`, in scan order. -/
theorem C7_witness :
    devSda ≠ [] ∧
    lookupAssoc (loadMountInfo envId [lineA, lineB]).mountsByDevice devSda =
      some [⟨[47, 109, 110, 116, 49], [101, 120, 116, 52], devSda⟩,
            ⟨[47, 109, 110, 116, 50], [101, 120, 116, 52], devSda⟩] :=
  ⟨by decide, (C7_theorem envId [lineA, lineB] devSda (by decide)).trans (by decide)⟩

/-! ## Claim C3 -/

/-- C3 (counterexample): walking up from the canonical path `"/a"` with an
empty mountpoint index, the loop reaches the fixed point `"/"` and wraps
`ErrNotAMountpoint` around the final loop variable, naming `"/"` — not the
original queried path `"/a"` as the claim states. -/
theorem C3_counterexample :
    findMountFrom parentDemo [] 5 [47, 97] = some (MountResult.notAMountpoint [47]) ∧
    findMountFrom parentDemo [] 5 [47, 97] ≠
      some (MountResult.notAMountpoint [47, 97]) := by
  decide

/-- C3 (amended): when the upward walk terminates because the parent equals
the current path without ever finding a match, the operation fails with a
not-a-mountpoint error that names the topmost ancestor reached by the walk
(the fixed point of the parent function), which is an iterated parent of
the original queried path and coincides with it only when the original path
is already that fixed point; every path visited on the way, the original
included, misses the index. -/
theorem C3_theorem (parent : List Nat → List Nat) (tbl : List (List Nat × Mount)) :
    ∀ (fuel : Nat) (path e : List Nat),
      findMountFrom parent tbl fuel path = some (MountResult.notAMountpoint e) →
      parent e = e ∧ lookupAssoc tbl e = none ∧
      ∃ k, e = parent^[k] path ∧
        ∀ j, j ≤ k → lookupAssoc tbl (parent^[j] path) = none := by
  intro fuel
  induction fuel with
  | zero =>
    intro path e h
    exact absurd h (by simp [findMountFrom])
  | succ f ih =>
    intro path e h
    have hunf : findMountFrom parent tbl (f + 1) path =
        match lookupAssoc tbl path with
        | some mnt => some (MountResult.found mnt)
        | none =>
          if parent path = path then some (MountResult.notAMountpoint path)
          else findMountFrom parent tbl f (parent path) := rfl
    rw [hunf] at h
    cases hl : lookupAssoc tbl path with
    | some mnt =>
      rw [hl] at h
      simp at h
    | none =>
      rw [hl] at h
      by_cases hp : parent path = path
      · rw [if_pos hp] at h
        have he : path = e := by simpa using h
        subst he
        refine ⟨hp, hl, 0, by simp, fun j hj => ?_⟩
        have hj0 : j = 0 := Nat.le_zero.mp hj
        subst hj0
        simpa using hl
      · rw [if_neg hp] at h
        obtain ⟨h1, h2, k, hk, hall⟩ := ih (parent path) e h
        refine ⟨h1, h2, k + 1, ?_, ?_⟩
        · rw [Function.iterate_succ_apply]
          exact hk
        · intro j hj
          cases j with
          | zero => simpa using hl
          | succ j =>
            rw [Function.iterate_succ_apply]
            exact hall j (by omega)

/-- C3 (witness): the demo walk from `"/a"` over the empty index errors at
the fixed point `"/"`. -/
theorem C3_witness :
    findMountFrom parentDemo [] 5 [47, 97] = some (MountResult.notAMountpoint [47]) ∧
    (parentDemo [47] = [47] ∧ lookupAssoc ([] : List (List Nat × Mount)) [47] = none ∧
      ∃ k, [47] = parentDemo^[k] [47, 97] ∧
        ∀ j, j ≤ k →
          lookupAssoc ([] : List (List Nat × Mount)) (parentDemo^[j] [47, 97]) = none) :=
  ⟨by decide, C3_theorem parentDemo [] 5 [47, 97] [47] (by decide)⟩

/-! ## Claim C6 -/

/-- The upward walk finds the nearest ancestor present in the index. -/
theorem findMountFrom_finds (parent : List Nat → List Nat) (tbl : List (List Nat × Mount)) :
    ∀ (k fuel : Nat) (path : List Nat) (m : Mount),
      lookupAssoc tbl (parent^[k] path) = some m →
      (∀ j, j < k → lookupAssoc tbl (parent^[j] path) = none) →
      k < fuel →
      findMountFrom parent tbl fuel path = some (MountResult.found m) := by
  intro k
  induction k with
  | zero =>
    intro fuel path m hk hmin hfuel
    rw [Function.iterate_zero_apply] at hk
    cases fuel with
    | zero => omega
    | succ f =>
      have hunf : findMountFrom parent tbl (f + 1) path =
          match lookupAssoc tbl path with
          | some mnt => some (MountResult.found mnt)
          | none =>
            if parent path = path then some (MountResult.notAMountpoint path)
            else findMountFrom parent tbl f (parent path) := rfl
      rw [hunf, hk]
  | succ k ih =>
    intro fuel path m hk hmin hfuel
    have hself : lookupAssoc tbl path = none := by
      have := hmin 0 (by omega)
      simpa using this
    cases fuel with
    | zero => omega
    | succ f =>
      have hunf : findMountFrom parent tbl (f + 1) path =
          match lookupAssoc tbl path with
          | some mnt => some (MountResult.found mnt)
          | none =>
            if parent path = path then some (MountResult.notAMountpoint path)
            else findMountFrom parent tbl f (parent path) := rfl
      rw [hunf, hself]
      show (if parent path = path then some (MountResult.notAMountpoint path)
            else findMountFrom parent tbl f (parent path)) = some (MountResult.found m)
      by_cases hp : parent path = path
      · exfalso
        rw [Function.iterate_fixed hp (k + 1), hself] at hk
        simp at hk
      · rw [if_neg hp]
        have h2 : lookupAssoc tbl (parent^[k] (parent path)) = some m := by
          rw [← Function.iterate_succ_apply]
          exact hk
        have h3 : ∀ j, j < k → lookupAssoc tbl (parent^[j] (parent path)) = none := by
          intro j hj
          rw [← Function.iterate_succ_apply]
          exact hmin (j + 1) (by omega)
        exact ih f (parent path) m h2 h3 (by omega)

/-- C6: on a canonical path that is not itself a key of the mountpoint
index but has a nearest iterated-parent ancestor that is, the exact lookup
of `GetMount` returns not-a-mountpoint for that path (no upward search),
while the upward walk of `FindMount` succeeds and returns the enclosing
mount's record. -/
theorem C6_theorem (parent : List Nat → List Nat) (tbl : List (List Nat × Mount))
    (k fuel : Nat) (path : List Nat) (m : Mount)
    (hself : lookupAssoc tbl path = none)
    (hk : lookupAssoc tbl (parent^[k] path) = some m)
    (hmin : ∀ j, j < k → lookupAssoc tbl (parent^[j] path) = none)
    (hfuel : k < fuel) :
    getMount tbl path = MountResult.notAMountpoint path ∧
    findMountFrom parent tbl fuel path = some (MountResult.found m) := by
  constructor
  · unfold getMount
    rw [hself]
  · exact findMountFrom_finds parent tbl k fuel path m hk hmin hfuel

/-- C6 (witness): the path `"/a/b"` inside the demo mount `"/a"`: the exact
lookup fails with not-a-mountpoint while the walk finds the mount. -/
theorem C6_witness :
    (lookupAssoc tblDemo [47, 97, 47, 98] = none ∧
     lookupAssoc tblDemo (parentDemo^[2] [47, 97, 47, 98]) = some mntDemo ∧
     (∀ j, j < 2 → lookupAssoc tblDemo (parentDemo^[j] [47, 97, 47, 98]) = none) ∧
     2 < 9) ∧
    getMount tblDemo [47, 97, 47, 98] = MountResult.notAMountpoint [47, 97, 47, 98] ∧
    findMountFrom parentDemo tblDemo 9 [47, 97, 47, 98] =
      some (MountResult.found mntDemo) :=
  ⟨⟨by decide, by decide, by decide, by decide⟩,
    C6_theorem parentDemo tblDemo 2 9 [47, 97, 47, 98] mntDemo
      (by decide) (by decide) (by decide) (by decide)⟩

/-! ## Claim C5 -/

/-- C5: link resolution rejects — independently of the environment and of
the mount table, hence before any filesystem access — any link whose split
on `"="` does not have exactly two components, any token other than `UUID`,
and, for a `UUID` token, any value that does not survive the join-then-base
round trip through the fixed UUID directory. -/
theorem C5_theorem (env : Env) (tbl : MountTable) (link : List Nat) :
    ((splitOnByte 61 link).length ≠ 2 →
      getMountsFromLink env tbl link = LinkResult.error (LinkError.invalidFormat link)) ∧
    (∀ token value, splitOnByte 61 link = [token, value] → token ≠ uuidToken →
      getMountsFromLink env tbl link = LinkResult.error (LinkError.tokenUnsupported token)) ∧
    (∀ value, splitOnByte 61 link = [uuidToken, value] →
      filepathBase (filepathJoin uuidDirectory value) ≠ value →
      getMountsFromLink env tbl link = LinkResult.error (LinkError.notAUUID value)) := by
  refine ⟨?_, ?_, ?_⟩
  · intro hlen
    unfold getMountsFromLink
    cases hs : splitOnByte 61 link with
    | nil => rfl
    | cons a t =>
      cases t with
      | nil => rfl
      | cons b t2 =>
        cases t2 with
        | nil =>
          exfalso
          rw [hs] at hlen
          simp at hlen
        | cons c t3 => rfl
  · intro token value hs htoken
    unfold getMountsFromLink
    rw [hs]
    show (if token ≠ uuidToken then LinkResult.error (LinkError.tokenUnsupported token)
          else _) = _
    rw [if_pos htoken]
  · intro value hs hbase
    unfold getMountsFromLink
    rw [hs]
    show (if uuidToken ≠ uuidToken then LinkResult.error (LinkError.tokenUnsupported uuidToken)
          else if filepathBase (filepathJoin uuidDirectory value) ≠ value then
            LinkResult.error (LinkError.notAUUID value)
          else _) = _
    rw [if_neg (fun h => h rfl), if_pos hbase]

/-- C5 (witness): the link `"UUID=.."` is rejected as not a UUID — the
traversal value `".."` does not survive the join-then-base round trip —
with the never-succeeding demo environment and the empty table. -/
theorem C5_witness :
    splitOnByte 61 [85, 85, 73, 68, 61, 46, 46] = [uuidToken, [46, 46]] ∧
    filepathBase (filepathJoin uuidDirectory [46, 46]) ≠ [46, 46] ∧
    getMountsFromLink envDemo emptyTable [85, 85, 73, 68, 61, 46, 46] =
      LinkResult.error (LinkError.notAUUID [46, 46]) :=
  ⟨by decide, by decide,
    (C5_theorem envDemo emptyTable [85, 85, 73, 68, 61, 46, 46]).2.2 [46, 46]
      (by decide) (by decide)⟩

/-! ## Claim C8 -/

/-- C8: a well-formed `UUID` link whose symlink path canonicalizes to a
device with no entry in the device index fails with the link-following
error naming the device, and never succeeds with any (in particular an
empty) list of mounts. -/
theorem C8_theorem (env : Env) (tbl : MountTable) (link value dev : List Nat)
    (hsplit : splitOnByte 61 link = [uuidToken, value])
    (hbase : filepathBase (filepathJoin uuidDirectory value) = value)
    (hcanon : env.canonicalize (filepathJoin uuidDirectory value) = some dev)
    (hlookup : lookupAssoc tbl.mountsByDevice dev = none) :
    getMountsFromLink env tbl link = LinkResult.error (LinkError.noMountsForDevice dev) ∧
    ∀ mnts, getMountsFromLink env tbl link ≠ LinkResult.ok mnts := by
  have hmain : getMountsFromLink env tbl link =
      LinkResult.error (LinkError.noMountsForDevice dev) := by
    unfold getMountsFromLink
    rw [hsplit]
    show (if uuidToken ≠ uuidToken then LinkResult.error (LinkError.tokenUnsupported uuidToken)
          else if filepathBase (filepathJoin uuidDirectory value) ≠ value then
            LinkResult.error (LinkError.notAUUID value)
          else
            match env.canonicalize (filepathJoin uuidDirectory value) with
            | none => LinkResult.error (LinkError.noDeviceWithUUID value)
            | some devicePath =>
              match lookupAssoc tbl.mountsByDevice devicePath with
              | none => LinkResult.error (LinkError.noMountsForDevice devicePath)
              | some mnts => LinkResult.ok mnts) =
        LinkResult.error (LinkError.noMountsForDevice dev)
    rw [if_neg (fun h => h rfl), if_neg (fun h => h hbase), hcanon]
    show (match lookupAssoc tbl.mountsByDevice dev with
          | none => LinkResult.error (LinkError.noMountsForDevice dev)
          | some mnts => LinkResult.ok mnts) =
        LinkResult.error (LinkError.noMountsForDevice dev)
    rw [hlookup]
  exact ⟨hmain, fun mnts h => by rw [hmain] at h; exact LinkResult.noConfusion h⟩

/-- C8 (witness): the link `"UUID=abc"` resolves to the device `"/dev/sda"`
in the demo environment, and with the empty table the resolution fails with
the no-mounts error. -/
theorem C8_witness :
    (splitOnByte 61 [85, 85, 73, 68, 61, 97, 98, 99] = [uuidToken, [97, 98, 99]] ∧
     filepathBase (filepathJoin uuidDirectory [97, 98, 99]) = [97, 98, 99] ∧
     envSda.canonicalize (filepathJoin uuidDirectory [97, 98, 99]) = some devSda ∧
     lookupAssoc emptyTable.mountsByDevice devSda = none) ∧
    getMountsFromLink envSda emptyTable [85, 85, 73, 68, 61, 97, 98, 99] =
      LinkResult.error (LinkError.noMountsForDevice devSda) :=
  ⟨⟨by decide, by decide, by decide, by decide⟩,
    (C8_theorem envSda emptyTable [85, 85, 73, 68, 61, 97, 98, 99] [97, 98, 99] devSda
      (by decide) (by decide) (by decide) (by decide)).1⟩

/-! ## Claim C9 -/

/-- C9: constructing a stable link fails immediately — for every state of
the UUID directory, including an unreadable one (`dir = none`), so before
any read or scan — when the token is not `UUID`, and likewise when the
mount's recorded device is empty. -/
theorem C9_theorem (env : Env) (dir : Option (List DirEntry)) (mnt : Mount)
    (token : List Nat) :
    (token ≠ uuidToken →
      makeLink env dir mnt token =
        MakeLinkResult.error (MakeLinkError.tokenUnsupported token)) ∧
    (token = uuidToken → mnt.device = [] →
      makeLink env dir mnt token =
        MakeLinkResult.error (MakeLinkError.noDevice mnt.path)) := by
  constructor
  · intro h
    unfold makeLink
    rw [if_pos h]
  · intro ht hdev
    unfold makeLink
    rw [if_neg (fun h2 => h2 ht), if_pos hdev]

/-- C9 (witness): the token `"LABEL"` is rejected even with an unreadable
UUID directory. -/
theorem C9_witness :
    ([76, 65, 66, 69, 76] ≠ uuidToken) ∧
    makeLink envDemo none mntDemo [76, 65, 66, 69, 76] =
      MakeLinkResult.error (MakeLinkError.tokenUnsupported [76, 65, 66, 69, 76]) :=
  ⟨by decide, (C9_theorem envDemo none mntDemo [76, 65, 66, 69, 76]).1 (by decide)⟩
